import Mathlib

/- Verification development for the gammar display-calibration utility.

   Shallow embedding conventions:
   * Rust f32 values are modelled as exact rationals (ℚ); the one place
     where f32 rounding genuinely matters (the gamma-ramp power function)
     is abstracted as an explicit function parameter.
   * Rust String values are modelled as Lean String, or as List Char where
     byte-level slicing occurs (all strings involved are ASCII, so byte
     indices and character indices coincide).
   * Vec is modelled as List, HashMap as an association list. -/

namespace Gammar

/-- Rust f32::clamp over ℚ (src uses clamp with min ≤ max everywhere;
NaN is outside this model): if below the lower bound, the lower bound,
if above the upper bound, the upper bound, else the value itself. -/
def fclamp (x lo hi : ℚ) : ℚ :=
  if x < lo then lo else if x > hi then hi else x

/-- DisplaySettings (src/windows/display.rs lines 21-26): gamma,
brightness and contrast of one monitor. -/
structure DisplaySettings where
  gamma : ℚ
  brightness : ℚ
  contrast : ℚ
  deriving DecidableEq

/-- Default for DisplaySettings (src/windows/display.rs lines 28-36):
gamma 1.0, brightness 0.0, contrast 1.0. -/
def DisplaySettings.default : DisplaySettings := ⟨1, 0, 1⟩

/-- DisplaySettings::new (src/windows/display.rs lines 38-46): clamps
gamma to [0.1, 3.0], brightness to [-1.0, 1.0], contrast to [0.1, 3.0]. -/
def DisplaySettings.new (gamma brightness contrast : ℚ) : DisplaySettings :=
  ⟨fclamp gamma (1/10) 3, fclamp brightness (-1) 1, fclamp contrast (1/10) 3⟩

/-- The documented invariant on DisplaySettings: gamma in [0.1, 3.0],
brightness in [-1.0, 1.0], contrast in [0.1, 3.0]. -/
def SettingsInv (s : DisplaySettings) : Prop :=
  1/10 ≤ s.gamma ∧ s.gamma ≤ 3 ∧
  -1 ≤ s.brightness ∧ s.brightness ≤ 1 ∧
  1/10 ≤ s.contrast ∧ s.contrast ≤ 3

/-- StepSize (src/lib.rs lines 29-34): per-hotkey-press increments. -/
structure StepSize where
  gamma : ℚ
  brightness : ℚ
  contrast : ℚ
  deriving DecidableEq

/-- HotkeyAction (src/windows/hotkeys.rs lines 3-13). The LoadProfile
index is a Rust usize, modelled as ℕ (with the 64-bit bound made explicit
where it matters, see parse_usize). -/
inductive HotkeyAction where
  | IncreaseGamma
  | DecreaseGamma
  | IncreaseBrightness
  | DecreaseBrightness
  | IncreaseContrast
  | DecreaseContrast
  | Reset
  | LoadProfile (index : ℕ)
  deriving DecidableEq

/-- Profile (src/profiles.rs lines 4-8): a named settings preset. -/
structure Profile where
  name : String
  settings : DisplaySettings
  deriving DecidableEq

/-- ProfileManager::get_profile (src/profiles.rs lines 56-58):
self.profiles.get(index). The manager state is its profiles Vec. -/
def get_profile (profiles : List Profile) (index : ℕ) : Option Profile :=
  profiles[index]?

/-- ProfileManager::remove_profile (src/profiles.rs lines 36-42): if the
index is valid, remove and return the profile there; otherwise None and
the Vec is untouched. Result is (returned value, new profiles Vec). -/
def remove_profile (profiles : List Profile) (index : ℕ) :
    Option Profile × List Profile :=
  if h : index < profiles.length then
    (some (profiles.get ⟨index, h⟩), profiles.eraseIdx index)
  else
    (none, profiles)

/-- ProfileManager::update_profile (src/profiles.rs lines 45-53): if the
index is valid, overwrite the profile there and return true; otherwise
false and the Vec is untouched. Result is (returned bool, new Vec). -/
def update_profile (profiles : List Profile) (index : ℕ) (profile : Profile) :
    Bool × List Profile :=
  if index < profiles.length then
    (true, profiles.set index profile)
  else
    (false, profiles)

/-- The hotkey callback dispatch (src/main.rs lines 128-157): the match on
the action that mutates the current settings. Increase arms clamp above
with min, Decrease arms clamp below with max, Reset restores the default,
LoadProfile replaces the settings by the profile at the index when the
index is valid and otherwise leaves them unchanged. -/
def hotkey_dispatch (step : StepSize) (profiles : List Profile)
    (s : DisplaySettings) : HotkeyAction → DisplaySettings
  | .IncreaseGamma => { s with gamma := min (s.gamma + step.gamma) 3 }
  | .DecreaseGamma => { s with gamma := max (s.gamma - step.gamma) (1/10) }
  | .IncreaseBrightness =>
      { s with brightness := min (s.brightness + step.brightness) 1 }
  | .DecreaseBrightness =>
      { s with brightness := max (s.brightness - step.brightness) (-1) }
  | .IncreaseContrast => { s with contrast := min (s.contrast + step.contrast) 3 }
  | .DecreaseContrast => { s with contrast := max (s.contrast - step.contrast) (1/10) }
  | .Reset => DisplaySettings.default
  | .LoadProfile index =>
      match get_profile profiles index with
      | some p => p.settings
      | none => s

/-- MonitorInfo (src/windows/display.rs lines 13-19). -/
structure MonitorInfo where
  id : String
  name : String
  device_name : String
  is_primary : Bool
  deriving DecidableEq

/-- find_monitor (src/tabs/settings.rs lines 8-18): with Some(id) it
returns the first monitor whose id equals the given id (an early return,
None when nothing matches); with None it returns the first primary
monitor, falling back to the first monitor of the list. -/
def find_monitor (monitors : List MonitorInfo) (id : Option String) :
    Option MonitorInfo :=
  match id with
  | some i => monitors.find? (fun m => m.id == i)
  | none => (monitors.find? (fun m => m.is_primary)).or monitors.head?

/-- Observable side effects of one settings-mutation path: a hardware
gamma apply (with its success flag) or a configuration save. -/
inductive Effect where
  | applyGamma (ok : Bool)
  | save
  deriving DecidableEq

/-- Effect trace of the tail of the hotkey callback (src/main.rs lines
157-167): after storing the new settings it applies them to the selected
monitor when one is found (ignoring the Result), then always saves. The
applyOk flag stands for the outcome of apply_display_settings_to_monitor,
whose hardware call is outside this model. -/
def hotkey_callback_effects (monitors : List MonitorInfo)
    (selectedId : String) (applyOk : Bool) : List Effect :=
  (match find_monitor monitors (some selectedId) with
   | some _ => [Effect.applyGamma applyOk]
   | none => []) ++ [Effect.save]

/-- Effect trace of apply_settings_update (src/tabs/settings.rs lines
20-39), the UI slider path: when a monitor is found it applies the
settings, and saves only in the Ok branch; in the Err branch it records
the error message and does not save; when no monitor is found it does
nothing. -/
def apply_settings_update_effects (monitors : List MonitorInfo)
    (selectedId : String) (applyOk : Bool) : List Effect :=
  match find_monitor monitors (some selectedId) with
  | some _ =>
      if applyOk then [Effect.applyGamma true, Effect.save]
      else [Effect.applyGamma false]
  | none => []

/-- One entry of the gamma ramp built by apply_display_settings_to_monitor
(src/windows/display.rs lines 134-144). The f32 expression
(i as f32 / 255.0).powf(1.0 / settings.gamma) is abstracted as pw applied
to i / 255: pw stands for fun x => x ^ (1 / gamma). The remaining
arithmetic is exact over ℚ. The final as u16 cast truncates the value
toward zero; the clamp makes it nonnegative, so truncation is the floor. -/
def ramp_entry (pw : ℚ → ℚ) (s : DisplaySettings) (i : ℕ) : ℕ :=
  (Int.floor
    (fclamp ((pw ((i : ℚ) / 255) - 1/2) * s.contrast + 1/2 + s.brightness)
      0 1 * 65535)).toNat

/-- The full 768-entry ramp array of the same loop, modelled as a function
from index to value: starting from all zeroes, for each i in 0..256 the
loop writes the entry value at positions i, i + 256 and i + 512. -/
def build_ramp (pw : ℚ → ℚ) (s : DisplaySettings) : ℕ → ℕ :=
  (List.range 256).foldl
    (fun r i => fun j =>
      if j = i ∨ j = i + 256 ∨ j = i + 512 then ramp_entry pw s i else r j)
    (fun _ => 0)

/-- Modelled from the spec: the spec formula value16 = round(clamp(
(gamma_corrected - 0.5) * contrast + 0.5 + brightness, 0, 1) * 65535),
identical to ramp_entry except that it rounds to the nearest integer
where the code truncates. Used to compare the code against the spec. -/
def spec_ramp_entry (pw : ℚ → ℚ) (s : DisplaySettings) (i : ℕ) : ℕ :=
  (round
    (fclamp ((pw ((i : ℚ) / 255) - 1/2) * s.contrast + 1/2 + s.brightness)
      0 1 * 65535)).toNat

/-- Decimal digit list of a natural number, least trust model of Rust
format!("{}", n): most significant digit first, no sign, no leading zero
(a single 0 digit for n = 0). -/
def natDigits (n : ℕ) : List Char :=
  if h : n < 10 then [Char.ofNat (48 + n)]
  else natDigits (n / 10) ++ [Char.ofNat (48 + n % 10)]
  decreasing_by exact Nat.div_lt_self (by omega) (by omega)

/-- action_to_string (src/lib.rs lines 121-132), over List Char: the
seven unit variants map to their own names, LoadProfile(index) maps to
the string LoadProfile( followed by the decimal index and a closing
parenthesis. -/
def action_to_string : HotkeyAction → List Char
  | .IncreaseGamma => "IncreaseGamma".data
  | .DecreaseGamma => "DecreaseGamma".data
  | .IncreaseBrightness => "IncreaseBrightness".data
  | .DecreaseBrightness => "DecreaseBrightness".data
  | .IncreaseContrast => "IncreaseContrast".data
  | .DecreaseContrast => "DecreaseContrast".data
  | .Reset => "Reset".data
  | .LoadProfile index => "LoadProfile(".data ++ natDigits index ++ ")".data

/-- Rust str::parse::<usize> on the documented ASCII forms: an optional
leading plus sign followed by one or more ASCII digits, Err (here none)
on an empty body, a non-digit, or overflow past the 64-bit usize range
(the program targets 64-bit Windows). -/
def parse_usize (s : List Char) : Option ℕ :=
  let body := if s.head? = some '+' then s.tail else s
  if body ≠ [] ∧ body.all Char.isDigit then
    let n := body.foldl (fun acc c => 10 * acc + (c.toNat - 48)) 0
    if n < 2 ^ 64 then some n else none
  else none

/-- string_to_action (src/lib.rs lines 135-153), over List Char: the
seven literal arms, then the guarded arm for strings that start with
LoadProfile( and end with a closing parenthesis, whose inner slice
s[12..len-1] is parsed as usize (None on parse failure); anything else
is None. take 12 models starts_with of the 12-byte literal, getLast?
models ends_with of the 1-byte literal. -/
def string_to_action (s : List Char) : Option HotkeyAction :=
  if s = "IncreaseGamma".data then some .IncreaseGamma
  else if s = "DecreaseGamma".data then some .DecreaseGamma
  else if s = "IncreaseBrightness".data then some .IncreaseBrightness
  else if s = "DecreaseBrightness".data then some .DecreaseBrightness
  else if s = "IncreaseContrast".data then some .IncreaseContrast
  else if s = "DecreaseContrast".data then some .DecreaseContrast
  else if s = "Reset".data then some .Reset
  else if s.take 12 = "LoadProfile(".data ∧ s.getLast? = some ')' then
    (parse_usize ((s.drop 12).dropLast)).map HotkeyAction.LoadProfile
  else none

/-- The index of a HotkeyAction fits in a Rust usize (trivial for the
unit variants). Every value representable in the program satisfies it. -/
def actionIndexOk : HotkeyAction → Prop
  | .LoadProfile index => index < 2 ^ 64
  | _ => True

/-- normalize_key (src/tabs/keybinds.rs lines 8-36 and the identical
src/windows/hotkeys.rs lines 62-89), over List Char: named keys map to
fixed uppercase names, a single alphanumeric character is uppercased,
plus and minus map to PLUS and MINUS, anything else to the empty
sentinel. Rust to_uppercase and char::is_alphanumeric are modelled by
their ASCII fragments Char.toUpper and Char.isAlphanum (every chord the
UI produces here is ASCII). -/
def normalize_key (key : List Char) : List Char :=
  if key ∈ ["F1".data, "F2".data, "F3".data, "F4".data, "F5".data,
      "F6".data, "F7".data, "F8".data, "F9".data, "F10".data,
      "F11".data, "F12".data] then
    key.map Char.toUpper
  else if key = "ArrowUp".data then "UP".data
  else if key = "ArrowDown".data then "DOWN".data
  else if key = "ArrowLeft".data then "LEFT".data
  else if key = "ArrowRight".data then "RIGHT".data
  else if key = "PageUp".data then "PAGEUP".data
  else if key = "PageDown".data then "PAGEDOWN".data
  else if key = "Home".data then "HOME".data
  else if key = "End".data then "END".data
  else if key = "Insert".data then "INSERT".data
  else if key = "Delete".data then "DELETE".data
  else if key = "Backspace".data then "BACKSPACE".data
  else if key = "Enter".data then "RETURN".data
  else if key = "Tab".data then "TAB".data
  else if key = "Space".data then "SPACE".data
  else if key.length = 1 ∧ key.headI.isAlphanum then key.map Char.toUpper
  else if key = "+".data then "PLUS".data
  else if key = "-".data then "MINUS".data
  else []

/-- The inner match of the Numpad branch of normalize_key_with_code
(src/tabs/keybinds.rs lines 43-53): the result for the part of the code
after the Numpad prefix, none when that part matches no arm (the Rust
match then falls through to the rest of the function). -/
def numpad_name (s : List Char) : Option (List Char) :=
  if s ∈ ["0".data, "1".data, "2".data, "3".data, "4".data, "5".data,
      "6".data, "7".data, "8".data, "9".data] then
    some ("Numpad".data ++ s)
  else if s = "Add".data then some "NumpadPLUS".data
  else if s = "Subtract".data then some "NumpadMINUS".data
  else if s = "Multiply".data then some "NumpadMULTIPLY".data
  else if s = "Divide".data then some "NumpadDIVIDE".data
  else if s = "Decimal".data then some "NumpadDECIMAL".data
  else none

/-- normalize_key_with_code (src/tabs/keybinds.rs lines 39-73 and the
identical src/windows/hotkeys.rs lines 92-126), over List Char: a code
with a recognized Numpad suffix wins, then a Digit prefix yields the part
after it, then a three-letter Key prefix with total length 4 yields the
uppercased letter, and otherwise the logical key is normalized. take n
models starts_with on the n-byte literal, drop models strip of that
literal, and code.length models the byte length code.len(). -/
def normalize_key_with_code (key code : List Char) : List Char :=
  match (if code.take 6 = "Numpad".data then numpad_name (code.drop 6) else none) with
  | some r => r
  | none =>
    if code.take 5 = "Digit".data then code.drop 5
    else if code.take 3 = "Key".data ∧ code.length = 4 then
      (code.drop 3).map Char.toUpper
    else normalize_key key

/-- KeybindConfig (src/windows/hotkeys.rs lines 31-35): modifier names
plus the main key, over List Char. -/
structure KeybindConfig where
  modifiers : List (List Char)
  key : List Char
  deriving DecidableEq

/-- The state touched by handle_key_capture (src/tabs/keybinds.rs lines
116-185): the four capture signals, plus the keybind map, the keybind
version counter and a counter of configuration saves (config.save() calls)
standing for the persistence side effect. -/
structure CaptureState where
  capturedModifiers : List (List Char)
  capturedKey : Option (List Char)
  editingAction : Option HotkeyAction
  recordingKeys : Bool
  keybinds : List (HotkeyAction × KeybindConfig)
  keybindVersion : ℕ
  saveCount : ℕ
  deriving DecidableEq

/-- HashMap::insert modelled on the association list: replace any entry
with the same action by the new binding. -/
def insert_keybind (m : List (HotkeyAction × KeybindConfig))
    (a : HotkeyAction) (k : KeybindConfig) :
    List (HotkeyAction × KeybindConfig) :=
  m.filter (fun p => p.1 != a) ++ [(a, k)]

/-- The modifier accumulation of the four modifier arms (src/tabs/
keybinds.rs lines 137-157): push the name unless already contained. -/
def add_modifier (mods : List (List Char)) (name : List Char) :
    List (List Char) :=
  if mods.contains name then mods else mods ++ [name]

/-- The four modifier arms of handle_key_capture (src/tabs/keybinds.rs
lines 137-157): logical key value paired with the stored modifier name. -/
def modifier_table : List (List Char × List Char) :=
  [("Control".data, "Ctrl".data), ("Shift".data, "Shift".data),
   ("Alt".data, "Alt".data), ("Meta".data, "Win".data)]

/-- handle_key_capture (src/tabs/keybinds.rs lines 116-185) as a pure
step function on CaptureState. Escape resets every capture signal and
leaves recording. A modifier key accumulates its display name. Any other
key is normalized with its code: an empty result changes nothing (the
final captured_modifiers.set writes the unchanged list back), a nonempty
result commits the binding for the action being edited (when there is
one), saves the configuration, bumps the keybind version and resets the
capture state. -/
def handle_key_capture (key code : List Char) (st : CaptureState) :
    CaptureState :=
  if key = "Escape".data then
    { st with editingAction := none, recordingKeys := false,
              capturedModifiers := [], capturedKey := none }
  else if key = "Control".data then
    { st with capturedModifiers := add_modifier st.capturedModifiers "Ctrl".data }
  else if key = "Shift".data then
    { st with capturedModifiers := add_modifier st.capturedModifiers "Shift".data }
  else if key = "Alt".data then
    { st with capturedModifiers := add_modifier st.capturedModifiers "Alt".data }
  else if key = "Meta".data then
    { st with capturedModifiers := add_modifier st.capturedModifiers "Win".data }
  else
    let normalized := normalize_key_with_code key code
    if normalized ≠ [] then
      match st.editingAction with
      | some action =>
          { st with
            capturedKey := none,
            editingAction := none,
            recordingKeys := false,
            capturedModifiers := [],
            keybinds := insert_keybind st.keybinds action
              ⟨st.capturedModifiers, normalized⟩,
            saveCount := st.saveCount + 1,
            keybindVersion := st.keybindVersion + 1 }
      | none =>
          { st with capturedKey := none, editingAction := none,
                    recordingKeys := false, capturedModifiers := [] }
    else
      st

/-! Helper lemmas about the clamp model. -/

theorem le_fclamp {x lo hi : ℚ} (h : lo ≤ hi) : lo ≤ fclamp x lo hi := by
  unfold fclamp
  split_ifs <;> linarith

theorem fclamp_le {x lo hi : ℚ} (h : lo ≤ hi) : fclamp x lo hi ≤ hi := by
  unfold fclamp
  split_ifs <;> linarith

theorem fclamp_eq_self {x lo hi : ℚ} (h1 : lo ≤ x) (h2 : x ≤ hi) :
    fclamp x lo hi = x := by
  unfold fclamp
  split_ifs <;> linarith

/-- C8. DisplaySettings::new always produces fields inside the invariant
ranges, and feeding the already-clamped fields back through the
constructor reproduces the same value (clamping is idempotent through
the constructor). -/
theorem settings_new_in_range_and_idempotent (g b c : ℚ) :
    SettingsInv (DisplaySettings.new g b c) ∧
    DisplaySettings.new (DisplaySettings.new g b c).gamma
        (DisplaySettings.new g b c).brightness
        (DisplaySettings.new g b c).contrast =
      DisplaySettings.new g b c := by
  have hg : (1/10 : ℚ) ≤ 3 := by norm_num
  have hb : (-1 : ℚ) ≤ 1 := by norm_num
  refine ⟨⟨le_fclamp hg, fclamp_le hg, le_fclamp hb, fclamp_le hb,
    le_fclamp hg, fclamp_le hg⟩, ?_⟩
  unfold DisplaySettings.new
  simp only
  rw [fclamp_eq_self (le_fclamp hg) (fclamp_le hg),
    fclamp_eq_self (le_fclamp hb) (fclamp_le hb),
    fclamp_eq_self (le_fclamp hg) (fclamp_le hg)]

/-- C2. For a nonnegative step size and a profile list whose settings all
satisfy the invariant, every hotkey dispatch step preserves the settings
invariant; moreover IncreaseGamma iterated any number of times from the
default never drives gamma above 3, and DecreaseContrast iterated any
number of times never drives contrast below 0.1. -/
theorem hotkey_dispatch_preserves_invariant (step : StepSize)
    (profiles : List Profile)
    (hstep : 0 ≤ step.gamma ∧ 0 ≤ step.brightness ∧ 0 ≤ step.contrast)
    (hprof : ∀ p ∈ profiles, SettingsInv p.settings) :
    (∀ s, SettingsInv s → ∀ a, SettingsInv (hotkey_dispatch step profiles s a)) ∧
    (∀ n, ((fun t => hotkey_dispatch step profiles t HotkeyAction.IncreaseGamma)^[n]
      DisplaySettings.default).gamma ≤ 3) ∧
    (∀ n, 1/10 ≤ ((fun t => hotkey_dispatch step profiles t HotkeyAction.DecreaseContrast)^[n]
      DisplaySettings.default).contrast) := by
  obtain ⟨hsg, hsb, hsc⟩ := hstep
  refine ⟨?_, ?_, ?_⟩
  · intro s hs a
    obtain ⟨hg1, hg2, hb1, hb2, hc1, hc2⟩ := hs
    cases a with
    | IncreaseGamma =>
        exact ⟨le_min (by linarith) (by norm_num), min_le_right _ _,
          hb1, hb2, hc1, hc2⟩
    | DecreaseGamma =>
        exact ⟨le_max_right _ _, max_le (by linarith) (by norm_num),
          hb1, hb2, hc1, hc2⟩
    | IncreaseBrightness =>
        exact ⟨hg1, hg2, le_min (by linarith) (by norm_num), min_le_right _ _,
          hc1, hc2⟩
    | DecreaseBrightness =>
        exact ⟨hg1, hg2, le_max_right _ _, max_le (by linarith) (by norm_num),
          hc1, hc2⟩
    | IncreaseContrast =>
        exact ⟨hg1, hg2, hb1, hb2, le_min (by linarith) (by norm_num),
          min_le_right _ _⟩
    | DecreaseContrast =>
        exact ⟨hg1, hg2, hb1, hb2, le_max_right _ _,
          max_le (by linarith) (by norm_num)⟩
    | Reset => norm_num [hotkey_dispatch, SettingsInv, DisplaySettings.default]
    | LoadProfile index =>
        simp only [hotkey_dispatch]
        cases hp : get_profile profiles index with
        | some p =>
            exact hprof p (List.getElem?_mem hp)
        | none => exact ⟨hg1, hg2, hb1, hb2, hc1, hc2⟩
  · intro n
    induction n with
    | zero => norm_num [DisplaySettings.default]
    | succ n ih =>
        rw [Function.iterate_succ_apply']
        exact min_le_right _ _
  · intro n
    induction n with
    | zero => norm_num [DisplaySettings.default]
    | succ n ih =>
        rw [Function.iterate_succ_apply']
        exact le_max_right _ _

/-- Witness for C2 at a concrete step size, profile list and settings. -/
theorem hotkey_dispatch_preserves_invariant_witness :
    SettingsInv (hotkey_dispatch ⟨1/10, 1/20, 1/10⟩ [] ⟨1, 0, 1⟩
      HotkeyAction.IncreaseGamma) :=
  (hotkey_dispatch_preserves_invariant ⟨1/10, 1/20, 1/10⟩ []
    ⟨by norm_num, by norm_num, by norm_num⟩ (by simp)).1
    ⟨1, 0, 1⟩ (by norm_num [SettingsInv]) HotkeyAction.IncreaseGamma

/-- C7. Dispatching LoadProfile with an index at or beyond the profile
list length leaves the settings unchanged (and, being a total function,
raises no error). -/
theorem load_profile_out_of_range_noop (step : StepSize)
    (profiles : List Profile) (s : DisplaySettings) (i : ℕ)
    (h : profiles.length ≤ i) :
    hotkey_dispatch step profiles s (HotkeyAction.LoadProfile i) = s := by
  simp only [hotkey_dispatch, get_profile]
  rw [List.getElem?_eq_none h]

/-- Witness for C7: loading profile 3 from an empty profile list. -/
theorem load_profile_out_of_range_noop_witness :
    hotkey_dispatch ⟨1, 1, 1⟩ [] ⟨1, 0, 1⟩ (HotkeyAction.LoadProfile 3) =
      ⟨1, 0, 1⟩ :=
  load_profile_out_of_range_noop ⟨1, 1, 1⟩ [] ⟨1, 0, 1⟩ 3 (by simp)

/-- C10. For an out-of-range index, remove_profile returns None and
update_profile returns false, and both leave the profile list completely
unchanged. -/
theorem profile_mutation_out_of_range_noop (profiles : List Profile)
    (index : ℕ) (p : Profile) (h : profiles.length ≤ index) :
    remove_profile profiles index = (none, profiles) ∧
    update_profile profiles index p = (false, profiles) := by
  have h' : ¬ index < profiles.length := Nat.not_lt.mpr h
  constructor
  · unfold remove_profile
    rw [dif_neg h']
  · unfold update_profile
    rw [if_neg h']

/-- Witness for C10: index 2 on a one-profile list. -/
theorem profile_mutation_out_of_range_noop_witness :
    remove_profile [⟨"p", ⟨1, 0, 1⟩⟩] 2 = (none, [⟨"p", ⟨1, 0, 1⟩⟩]) ∧
    update_profile [⟨"p", ⟨1, 0, 1⟩⟩] 2 ⟨"q", ⟨2, 0, 2⟩⟩ =
      (false, [⟨"p", ⟨1, 0, 1⟩⟩]) :=
  profile_mutation_out_of_range_noop [⟨"p", ⟨1, 0, 1⟩⟩] 2 ⟨"q", ⟨2, 0, 2⟩⟩
    (by simp)

/-- C1 counterexample. A one-element monitor list with a primary monitor
and a non-matching id: find_monitor returns none although the list is
nonempty and has a primary monitor, so the claimed primary-then-first
fallback for Some(id) does not happen. -/
theorem find_monitor_no_fallback_counterexample :
    find_monitor [⟨"a", "A", "d", true⟩] (some "b") = none ∧
    ([⟨"a", "A", "d", true⟩] : List MonitorInfo) ≠ [] ∧
    (⟨"a", "A", "d", true⟩ : MonitorInfo).is_primary = true := by
  refine ⟨?_, by simp, rfl⟩
  simp [find_monitor]

/-- C1 as amended. With Some(id), find_monitor returns none exactly when
no monitor has the given id, and any returned monitor is a list member
with that exact id; the primary-then-first fallback applies only to the
None argument: there the result is none exactly when the list is empty,
and a returned monitor is a member that is primary unless no monitor of
the list is primary. -/
theorem find_monitor_characterization (monitors : List MonitorInfo)
    (id : String) :
    (find_monitor monitors (some id) = none ↔ ∀ m ∈ monitors, m.id ≠ id) ∧
    (∀ m, find_monitor monitors (some id) = some m → m ∈ monitors ∧ m.id = id) ∧
    (find_monitor monitors none = none ↔ monitors = []) ∧
    (∀ m, find_monitor monitors none = some m →
      m ∈ monitors ∧ (m.is_primary = true ∨ ∀ m2 ∈ monitors, m2.is_primary = false)) := by
  refine ⟨?_, ?_, ?_, ?_⟩
  · simp [find_monitor, List.find?_eq_none]
  · intro m h
    simp only [find_monitor] at h
    exact ⟨List.mem_of_find?_eq_some h, by simpa using List.find?_some h⟩
  · cases monitors with
    | nil => simp [find_monitor]
    | cons m tl =>
        simp only [find_monitor]
        cases h : List.find? (fun m => m.is_primary) (m :: tl) <;>
          simp [Option.or, h]
  · intro m h
    simp only [find_monitor] at h
    cases hf : List.find? (fun m => m.is_primary) monitors with
    | some m' =>
        rw [hf] at h
        simp only [Option.or] at h
        cases h
        exact ⟨List.mem_of_find?_eq_some hf, Or.inl (List.find?_some hf)⟩
    | none =>
        rw [hf] at h
        simp only [Option.or] at h
        refine ⟨List.mem_of_mem_head? (by simp [h]), Or.inr ?_⟩
        intro m2 hm2
        have := List.find?_eq_none.mp hf m2 hm2
        simpa using this

/-- Witness for C1 as amended: the empty list maps to none under the
None argument. -/
theorem find_monitor_characterization_witness :
    find_monitor [] none = none :=
  (find_monitor_characterization [] "x").2.2.1.mpr rfl

/-- C4 counterexample. On the UI slider path, with a monitor list
containing the selected monitor and a failing hardware apply, the apply
is attempted and fails and no configuration save occurs, contradicting
the claim that a save is attempted regardless of the apply outcome. -/
theorem slider_save_skipped_counterexample :
    Effect.save ∉ apply_settings_update_effects [⟨"1", "M", "d", true⟩] "1" false ∧
    Effect.applyGamma false ∈
      apply_settings_update_effects [⟨"1", "M", "d", true⟩] "1" false := by
  constructor <;> simp [apply_settings_update_effects, find_monitor]

/-- C4 as amended. The hotkey callback always attempts a configuration
save, whatever the monitor lookup and apply outcome; the UI slider path
saves exactly when the selected monitor is found and the hardware apply
succeeds (on apply failure, and when no monitor is found, the updated
settings are not persisted). -/
theorem save_after_mutation_paths (monitors : List MonitorInfo)
    (selectedId : String) (applyOk : Bool) :
    Effect.save ∈ hotkey_callback_effects monitors selectedId applyOk ∧
    (Effect.save ∈ apply_settings_update_effects monitors selectedId applyOk ↔
      (find_monitor monitors (some selectedId)).isSome ∧ applyOk = true) := by
  constructor
  · unfold hotkey_callback_effects
    cases find_monitor monitors (some selectedId) <;> simp
  · unfold apply_settings_update_effects
    cases h : find_monitor monitors (some selectedId) <;>
      cases applyOk <;> simp [h]

/-- The ramp-building fold, after n iterations, holds the entry value of
i at positions i, i + 256 and i + 512 for every i < n (the three write
targets of distinct iterations never collide). -/
theorem build_ramp_fold_writes (pw : ℚ → ℚ) (s : DisplaySettings) (n : ℕ)
    (hn : n ≤ 256) : ∀ i < n, ∀ j, (j = i ∨ j = i + 256 ∨ j = i + 512) →
    ((List.range n).foldl
      (fun r i => fun j =>
        if j = i ∨ j = i + 256 ∨ j = i + 512 then ramp_entry pw s i else r j)
      (fun _ => 0)) j = ramp_entry pw s i := by
  induction n with
  | zero => intro i hi; omega
  | succ n ih =>
      intro i hi j hj
      rw [List.range_succ, List.foldl_append]
      simp only [List.foldl_cons, List.foldl_nil]
      rcases Nat.lt_succ_iff_lt_or_eq.mp hi with hlt | heq
      · rw [if_neg (by omega)]
        exact ih (by omega) i hlt j hj
      · subst heq
        rw [if_pos hj]

/-- C3 counterexample. At gamma = 1 (where the power function is the
identity and every f32 intermediate value of the source computation is
exactly representable), brightness = 0.25, contrast = 1 and index 0 the
clamped value times 65535 is 16383.75: the code truncates it to 16383
while the spec formula rounds it to 16384. -/
theorem gamma_ramp_truncation_counterexample :
    ramp_entry (fun x => x) ⟨1, 1/4, 1⟩ 0 = 16383 ∧
    spec_ramp_entry (fun x => x) ⟨1, 1/4, 1⟩ 0 = 16384 := by
  have hval : fclamp ((((0:ℕ):ℚ)/255 - 1/2) * (1:ℚ) + 1/2 + (1/4:ℚ)) 0 1 * 65535
      = 65535/4 := by
    unfold fclamp
    norm_num
  constructor
  · unfold ramp_entry
    rw [hval, show Int.floor ((65535:ℚ)/4) = 16383 by
      rw [Int.floor_eq_iff]
      norm_num]
    rfl
  · unfold spec_ramp_entry
    rw [hval, show round ((65535:ℚ)/4) = 16384 by
      rw [round_eq, Int.floor_eq_iff]
      norm_num]
    rfl

/-- C3 as amended. For every index i < 256: the final ramp holds the
entry value identically at i, i + 256 and i + 512 (the three channel
tables agree); the code entry is the truncation of the spec value, so it
equals the spec round-based entry up to one unit (code ≤ spec ≤ code + 1);
and in the identity case gamma = 1, brightness = 0, contrast = 1 both the
code and the spec formula give exactly 257 * i = round(i / 255 * 65535). -/
theorem gamma_ramp_characterization (pw : ℚ → ℚ) (s : DisplaySettings)
    (i : ℕ) (hi : i < 256) :
    (build_ramp pw s i = ramp_entry pw s i ∧
     build_ramp pw s (i + 256) = ramp_entry pw s i ∧
     build_ramp pw s (i + 512) = ramp_entry pw s i) ∧
    (ramp_entry pw s i ≤ spec_ramp_entry pw s i ∧
     spec_ramp_entry pw s i ≤ ramp_entry pw s i + 1) ∧
    (ramp_entry (fun x => x) ⟨1, 0, 1⟩ i = 257 * i ∧
     spec_ramp_entry (fun x => x) ⟨1, 0, 1⟩ i = 257 * i) := by
  refine ⟨⟨?_, ?_, ?_⟩, ?_, ?_⟩
  · exact build_ramp_fold_writes pw s 256 le_rfl i hi i (Or.inl rfl)
  · exact build_ramp_fold_writes pw s 256 le_rfl i hi (i + 256) (Or.inr (Or.inl rfl))
  · exact build_ramp_fold_writes pw s 256 le_rfl i hi (i + 512) (Or.inr (Or.inr rfl))
  · set q : ℚ :=
      fclamp ((pw ((i : ℚ) / 255) - 1/2) * s.contrast + 1/2 + s.brightness)
        0 1 * 65535 with hq
    have hq0 : (0:ℚ) ≤ q := by
      rw [hq]
      have h01 : (0:ℚ) ≤ fclamp
          ((pw ((i : ℚ) / 255) - 1/2) * s.contrast + 1/2 + s.brightness) 0 1 :=
        @le_fclamp ((pw ((i : ℚ) / 255) - 1/2) * s.contrast + 1/2 + s.brightness)
          0 1 (by norm_num)
      positivity
    have h1 : Int.floor q ≤ round q := by
      rw [round_eq]
      exact Int.floor_le_floor (by linarith)
    have h2 : round q ≤ Int.floor q + 1 := by
      rw [round_eq]
      calc Int.floor (q + 1/2) ≤ Int.floor (q + 1) :=
            Int.floor_le_floor (by linarith)
        _ = Int.floor q + 1 := by
            rw [show q + 1 = q + ((1:ℤ):ℚ) by norm_num, Int.floor_add_int]
    have h0 : 0 ≤ Int.floor q := Int.floor_nonneg.mpr hq0
    unfold ramp_entry spec_ramp_entry
    rw [← hq]
    omega
  · have hle : (i : ℚ) ≤ 255 := by
      have : (i : ℚ) ≤ (255 : ℕ) := Nat.cast_le.mpr (by omega)
      simpa using this
    have hinner : ((fun (x:ℚ) => x) ((i : ℚ) / 255) - 1/2) *
        (⟨1, 0, 1⟩ : DisplaySettings).contrast + 1/2 +
        (⟨1, 0, 1⟩ : DisplaySettings).brightness = (i : ℚ) / 255 := by
      show ((i : ℚ) / 255 - 1/2) * 1 + 1/2 + 0 = (i : ℚ) / 255
      ring
    have hcl : fclamp ((i : ℚ) / 255) 0 1 = (i : ℚ) / 255 := by
      refine fclamp_eq_self (by positivity) ?_
      rw [div_le_one (by norm_num)]
      linarith
    have hprod : (i : ℚ) / 255 * 65535 = (((257 * i : ℕ) : ℤ) : ℚ) := by
      push_cast
      ring
    constructor
    · unfold ramp_entry
      rw [hinner, hcl, hprod, Int.floor_intCast, Int.toNat_natCast]
    · unfold spec_ramp_entry
      rw [hinner, hcl, hprod, round_intCast, Int.toNat_natCast]

/-- Witness for C3 as amended, at index 0. -/
theorem gamma_ramp_characterization_witness :
    build_ramp (fun x => x) ⟨1, 0, 1⟩ 0 = ramp_entry (fun x => x) ⟨1, 0, 1⟩ 0 :=
  ((gamma_ramp_characterization (fun x => x) ⟨1, 0, 1⟩ 0 (by norm_num)).1).1

/-- C6. The six chord normalizations of the claim, computed on the
embedded normalize_key_with_code: physical Digit and Key codes win over
the logical key, numpad digits keep their Numpad prefix, named keys map
to their fixed names, and an unrecognized chord yields the empty
sentinel. -/
theorem normalize_key_with_code_examples :
    normalize_key_with_code "1".data "Digit1".data = "1".data ∧
    normalize_key_with_code "!".data "Digit1".data = "1".data ∧
    normalize_key_with_code "a".data "KeyA".data = "A".data ∧
    normalize_key_with_code "5".data "Numpad5".data = "Numpad5".data ∧
    normalize_key_with_code "ArrowUp".data "ArrowUp".data = "UP".data ∧
    normalize_key_with_code "@".data "Unknown".data = [] := by
  refine ⟨?_, ?_, ?_, ?_, ?_, ?_⟩ <;> decide

/-- Adding a modifier name preserves distinctness of the accumulated
modifier list: the name is appended only when not already contained. -/
theorem add_modifier_nodup {mods : List (List Char)} {name : List Char}
    (h : mods.Nodup) : (add_modifier mods name).Nodup := by
  unfold add_modifier
  split_ifs with hc
  · exact h
  · have : name ∉ mods := by
      intro hm
      exact hc (List.elem_iff.mpr hm)
    simp [List.nodup_append, h, this]

/-- C9. The keybind-recording step function: Escape resets the machine to
Idle and discards the accumulated modifiers; a modifier key-down appends
its name only when absent (leaving recording, editing target, bindings
and save count untouched), so distinctness of the accumulated list is
preserved by every event; a non-modifier key whose normalization is the
empty sentinel changes nothing at all; and a non-modifier key with a
nonempty normalization, while an action is being edited, commits the
binding built from the accumulated modifiers, triggers exactly one save,
bumps the keybind version and returns the machine to Idle. -/
theorem handle_key_capture_state_machine (key code : List Char)
    (st : CaptureState) :
    (key = "Escape".data →
      handle_key_capture key code st =
        { st with editingAction := none, recordingKeys := false,
                  capturedModifiers := [], capturedKey := none }) ∧
    (∀ mp ∈ modifier_table, key = mp.1 →
      (handle_key_capture key code st).capturedModifiers =
        (if mp.2 ∈ st.capturedModifiers then st.capturedModifiers
         else st.capturedModifiers ++ [mp.2]) ∧
      (handle_key_capture key code st).recordingKeys = st.recordingKeys ∧
      (handle_key_capture key code st).editingAction = st.editingAction ∧
      (handle_key_capture key code st).keybinds = st.keybinds ∧
      (handle_key_capture key code st).saveCount = st.saveCount) ∧
    (st.capturedModifiers.Nodup →
      (handle_key_capture key code st).capturedModifiers.Nodup) ∧
    (key ∉ ["Escape".data, "Control".data, "Shift".data, "Alt".data,
        "Meta".data] →
      normalize_key_with_code key code = [] →
      handle_key_capture key code st = st) ∧
    (∀ a, key ∉ ["Escape".data, "Control".data, "Shift".data, "Alt".data,
        "Meta".data] →
      normalize_key_with_code key code ≠ [] →
      st.editingAction = some a →
      handle_key_capture key code st =
        { capturedModifiers := [], capturedKey := none,
          editingAction := none, recordingKeys := false,
          keybinds := insert_keybind st.keybinds a
            ⟨st.capturedModifiers, normalize_key_with_code key code⟩,
          keybindVersion := st.keybindVersion + 1,
          saveCount := st.saveCount + 1 }) := by
  have hmem : ∀ mods name, (add_modifier mods name : List (List Char)) =
      if name ∈ mods then mods else mods ++ [name] := by
    intro mods name
    unfold add_modifier
    by_cases hm : name ∈ mods
    · rw [if_pos (List.elem_iff.mpr hm), if_pos hm]
    · rw [if_neg (fun hc => hm (List.elem_iff.mp hc)), if_neg hm]
  refine ⟨?_, ?_, ?_, ?_, ?_⟩
  · intro h
    simp [handle_key_capture, h]
  · intro mp hmp hk
    fin_cases hmp <;>
      simp [handle_key_capture, hk, hmem]
  · intro hnd
    unfold handle_key_capture
    split_ifs with h1 h2 h3 h4 h5
    · simp
    · simpa using add_modifier_nodup hnd
    · simpa using add_modifier_nodup hnd
    · simpa using add_modifier_nodup hnd
    · simpa using add_modifier_nodup hnd
    · cases st.editingAction <;>
        (by_cases hn : normalize_key_with_code key code = []) <;>
        simp [hn, hnd]
  · intro hk hnorm
    simp only [List.mem_cons, List.mem_singleton, not_or] at hk
    obtain ⟨h1, h2, h3, h4, h5⟩ := hk
    simp [handle_key_capture, h1, h2, h3, h4, h5, hnorm]
  · intro a hk hnorm hE
    simp only [List.mem_cons, List.mem_singleton, not_or] at hk
    obtain ⟨h1, h2, h3, h4, h5⟩ := hk
    simp [handle_key_capture, h1, h2, h3, h4, h5, hnorm, hE]

/-- Witness for C9: an Escape event from a concrete recording state
discards the accumulated Ctrl modifier. -/
theorem handle_key_capture_state_machine_witness :
    (handle_key_capture "Escape".data []
      ⟨["Ctrl".data], none, some HotkeyAction.Reset, true, [], 0, 0⟩).capturedModifiers = [] := by
  rw [(handle_key_capture_state_machine "Escape".data []
    ⟨["Ctrl".data], none, some HotkeyAction.Reset, true, [], 0, 0⟩).1 rfl]

/-! Helper lemmas about decimal digit strings. -/

theorem digit_char_spec (d : ℕ) (hd : d < 10) :
    (Char.ofNat (48 + d)).toNat = 48 + d ∧
    (Char.ofNat (48 + d)).isDigit = true ∧
    Char.ofNat (48 + d) ≠ '+' := by
  interval_cases d <;> exact ⟨rfl, rfl, by decide⟩

theorem natDigits_ne_nil (n : ℕ) : natDigits n ≠ [] := by
  unfold natDigits
  split_ifs <;> simp

theorem natDigits_all_digits (n : ℕ) :
    ∀ c ∈ natDigits n, c.isDigit = true := by
  induction n using Nat.strong_induction_on with
  | _ n ih =>
    unfold natDigits
    split_ifs with h
    · intro c hc
      simp only [List.mem_singleton] at hc
      subst hc
      exact (digit_char_spec n h).2.1
    · intro c hc
      rcases List.mem_append.mp hc with h1 | h2
      · exact ih (n / 10) (Nat.div_lt_self (by omega) (by omega)) c h1
      · simp only [List.mem_singleton] at h2
        subst h2
        exact (digit_char_spec (n % 10) (Nat.mod_lt _ (by omega))).2.1

theorem natDigits_foldl (n : ℕ) :
    (natDigits n).foldl (fun acc c => 10 * acc + (c.toNat - 48)) 0 = n := by
  induction n using Nat.strong_induction_on with
  | _ n ih =>
    unfold natDigits
    split_ifs with h
    · simp only [List.foldl_cons, List.foldl_nil, (digit_char_spec n h).1]
      omega
    · rw [List.foldl_append, ih (n / 10) (Nat.div_lt_self (by omega) (by omega))]
      simp only [List.foldl_cons, List.foldl_nil,
        (digit_char_spec (n % 10) (Nat.mod_lt _ (by omega))).1]
      omega

theorem parse_usize_natDigits (n : ℕ) (h : n < 2 ^ 64) :
    parse_usize (natDigits n) = some n := by
  have hne := natDigits_ne_nil n
  have hall := natDigits_all_digits n
  have hhead : ¬ (natDigits n).head? = some '+' := by
    cases hd : natDigits n with
    | nil => simp
    | cons c cs =>
        simp only [List.head?, Option.some.injEq]
        intro hc
        have hm : c ∈ natDigits n := by
          rw [hd]
          exact List.mem_cons_self _ _
        have := hall c hm
        rw [hc] at this
        exact absurd this (by decide)
  have hA : ((natDigits n).all Char.isDigit) = true :=
    List.all_eq_true.mpr hall
  unfold parse_usize
  simp only [hhead, if_false, ite_false]
  rw [if_pos ⟨hne, hA⟩, natDigits_foldl, if_pos h]

/-- C5 counterexample. The string LoadProfile(+7) is decoded to
Some(LoadProfile(7)) because parse::<usize> accepts a leading plus sign,
yet no HotkeyAction encodes to that string (the encoder emits decimal
digits only), so it is false that every string not produced by the
encoder decodes to None. -/
theorem string_to_action_noncanonical_counterexample :
    string_to_action "LoadProfile(+7)".data = some (HotkeyAction.LoadProfile 7) ∧
    ∀ a, action_to_string a ≠ "LoadProfile(+7)".data := by
  constructor
  · decide
  · intro a he
    cases a with
    | IncreaseGamma => exact absurd he (by decide)
    | DecreaseGamma => exact absurd he (by decide)
    | IncreaseBrightness => exact absurd he (by decide)
    | DecreaseBrightness => exact absurd he (by decide)
    | IncreaseContrast => exact absurd he (by decide)
    | DecreaseContrast => exact absurd he (by decide)
    | Reset => exact absurd he (by decide)
    | LoadProfile n =>
        simp only [action_to_string] at he
        have h12 : ("LoadProfile(".data : List Char).length = 12 := rfl
        have hlhs : ((("LoadProfile(".data ++ natDigits n ++ ")".data).drop 12).dropLast)
            = natDigits n := by
          rw [List.append_assoc, ← h12, List.drop_left,
            show (")".data : List Char) = [')'] from rfl, List.dropLast_concat]
        have h2 := congrArg (fun l => (List.dropLast (List.drop 12 l))) he
        simp only at h2
        rw [hlhs] at h2
        rw [show List.dropLast (List.drop 12 ("LoadProfile(+7)".data)) = ['+', '7']
          from rfl] at h2
        have hplus : '+' ∈ natDigits n := by
          rw [h2]
          exact List.mem_cons_self _ _
        have := natDigits_all_digits n '+' hplus
        exact absurd this (by decide)

/-- C5 as amended. Encoding then decoding yields the original action for
every HotkeyAction whose profile index fits in a 64-bit usize (in
particular LoadProfile(0) and LoadProfile(42)), and the decoder is a
total function, so no input can make it panic; however the decoder also
accepts some spellings the encoder never produces, such as a plus sign
before the LoadProfile index. -/
theorem action_string_roundtrip (a : HotkeyAction) (h : actionIndexOk a) :
    string_to_action (action_to_string a) = some a := by
  cases a with
  | IncreaseGamma => decide
  | DecreaseGamma => decide
  | IncreaseBrightness => decide
  | DecreaseBrightness => decide
  | IncreaseContrast => decide
  | DecreaseContrast => decide
  | Reset => decide
  | LoadProfile n =>
      have hn : n < 2 ^ 64 := h
      show string_to_action ("LoadProfile(".data ++ natDigits n ++ ")".data)
        = some (HotkeyAction.LoadProfile n)
      have h12 : ("LoadProfile(".data : List Char).length = 12 := rfl
      have htake : ("LoadProfile(".data ++ natDigits n ++ ")".data).take 12
          = "LoadProfile(".data := by
        rw [List.append_assoc, ← h12, List.take_left]
      have hlast : ("LoadProfile(".data ++ natDigits n ++ ")".data).getLast?
          = some ')' := by
        rw [show "LoadProfile(".data ++ natDigits n ++ ")".data
          = ("LoadProfile(".data ++ natDigits n) ++ [')'] by
            rw [List.append_assoc]]
        exact List.getLast?_concat _
      have hdrop : (("LoadProfile(".data ++ natDigits n ++ ")".data).drop 12).dropLast
          = natDigits n := by
        rw [List.append_assoc, ← h12, List.drop_left,
          show (")".data : List Char) = [')'] from rfl, List.dropLast_concat]
      have hlit : ∀ lit : List Char, lit.take 12 ≠ "LoadProfile(".data →
          "LoadProfile(".data ++ natDigits n ++ ")".data ≠ lit := by
        intro lit hl he
        rw [← he] at hl
        exact hl htake
      unfold string_to_action
      rw [if_neg (hlit _ (by decide)), if_neg (hlit _ (by decide)),
        if_neg (hlit _ (by decide)), if_neg (hlit _ (by decide)),
        if_neg (hlit _ (by decide)), if_neg (hlit _ (by decide)),
        if_neg (hlit _ (by decide)), if_pos ⟨htake, hlast⟩, hdrop,
        parse_usize_natDigits n hn]
      rfl

/-- Witness for C5 as amended: the round trip at LoadProfile(42). -/
theorem action_string_roundtrip_witness :
    string_to_action (action_to_string (HotkeyAction.LoadProfile 42)) =
      some (HotkeyAction.LoadProfile 42) :=
  action_string_roundtrip (HotkeyAction.LoadProfile 42)
    (by show (42:ℕ) < 2 ^ 64; decide)

end Gammar
